import Mathlib

/-!
Verification of the process-monitor core of `monitor.py`.

The development shallowly embeds the sampling/aggregation engine:
  * `sampleOne` / `collectSamples` embed the per-process detail-fetch loop
    of `monitor_like_task_manager` (lines 342-447), with fetch failures
    made explicit as constructors;
  * `mainIoEntries` / `primedIoEntries` / `nextIoCache` embed the
    `current_io_snapshot` accumulation and the wholesale replacement of
    `previous_io_counters` (lines 410-425, 449-469, 483-496);
  * `childrenMapAt`, `isRootTest`, `root_candidates` embed the forest
    builder (lines 507-523);
  * `log_process_tree` embeds the recursive subtree aggregation
    (lines 141-248), with an explicit fuel argument standing in for the
    call stack; `tree_visited` records the pids for which a line is
    written, in write order;
  * `name_field_length` / `truncSliceWidth` embed the name-column width
    and truncation arithmetic (lines 227-235).

Machine integers do not overflow in the Python source, so metrics are
modelled as `Int`/`Nat`, and CPU percentages (Python floats used only
additively and through `min`/division by the core count) as `ℚ`.
-/

namespace Monitor

/-- One entry of `psutil`'s `io_counters()` result: cumulative read and
written bytes for a process. -/
structure IOC where
  read_bytes : Int
  write_bytes : Int
deriving Repr, DecidableEq

/-- Outcome of the `process.cpu_percent(interval=None)` call at line 385:
either the raw percentage (relative to all cores) or an exception. -/
inductive CpuFetch where
  | ok (raw : ℚ)
  | fail
deriving Repr, DecidableEq

/-- Outcome of the `process.memory_info()` call at line 400: either the
resident set size in bytes or an exception. -/
inductive MemFetch where
  | ok (rss : Nat)
  | fail
deriving Repr, DecidableEq

/-- Outcome of the `process.io_counters()` call at line 411.
`failSpecific` is the `(NoSuchProcess, AccessDenied, NotImplementedError,
OSError)` handler (line 427), `failGeneric` the bare `Exception` handler
(line 431). -/
inductive IoFetch where
  | ok (c : IOC)
  | failSpecific
  | failGeneric
deriving Repr, DecidableEq

/-- One enumerated process as seen by the sampling loop (lines 342-447):
the `proc.info` fields delivered by `psutil.process_iter`, plus the
outcomes of the collaborator calls made for it.  `acquireOk` is whether
`psutil.Process(pid)` / the cache lookup succeeded (line 351-358);
`newlyCached` whether a new process object was cached (and hence the pid
appended to `newly_cached_pids`); `primeFetch` the outcome of the
priming `io_counters()` call at line 464 (`none` = exception). -/
structure ProcInput where
  pid : Nat
  ppid : Option Nat
  name : String
  rawStatus : String
  acquireOk : Bool
  newlyCached : Bool
  cpuFetch : CpuFetch
  memFetch : MemFetch
  ioFetch : IoFetch
  primeFetch : Option IOC
deriving Repr, DecidableEq

/-- The per-process record stored into `current_snapshot_data`
(lines 367-371 and 438-447). -/
structure SampleData where
  ppid : Option Nat
  name : String
  status : String
  cpu_percent : ℚ
  mem_ws_kb : Nat
  delta_read_bytes : Int
  delta_write_bytes : Int
deriving Repr, DecidableEq

/-- Association-list lookup keyed by pid; Python `dict` access. -/
def alookup {α : Type} (k : Nat) : List (Nat × α) → Option α
  | [] => none
  | e :: t => if e.1 = k then some e.2 else alookup k t

/-- Python `k in d` membership test for a pid-keyed dict. -/
def containsKey {α : Type} (m : List (Nat × α)) (k : Nat) : Bool :=
  (alookup k m).isSome

/-- The key list of a pid-keyed dict. -/
def keysOf {α : Type} (m : List (Nat × α)) : List Nat :=
  m.map Prod.fst

/-- The snapshot dicts of the source have distinct keys. -/
abbrev NodupKeys {α : Type} (m : List (Nat × α)) : Prop :=
  (keysOf m).Nodup

/-- `get_cpu_cores` (lines 51-61): the logical core count reported by
`psutil.cpu_count(logical=True)` (`none` when undetectable), defaulting
to 1 when `None` or `0`. -/
def get_cpu_cores (osCount : Option Nat) : Nat :=
  match osCount with
  | none => 1
  | some 0 => 1
  | some n => n

/-- Statuses protected from being overwritten by a CPU-fetch failure
(line 393). -/
def reservedAfterCpu : List String := ["terminated", "access denied"]

/-- Statuses protected from being overwritten by a memory-fetch failure
(line 403). -/
def reservedAfterMem : List String := ["terminated", "access denied", "cpu error"]

/-- Statuses protected from being overwritten by a specific I/O-fetch
failure (line 429). -/
def reservedAfterIo : List String :=
  ["terminated", "access denied", "cpu error", "mem error"]

/-- Statuses protected from being overwritten by a generic fetch failure
(line 433). -/
def reservedAfterFetch : List String :=
  ["terminated", "access denied", "cpu error", "mem error", "io error"]

/-- The body of the per-process sampling loop (lines 342-447): produce the
`current_snapshot_data` record for one enumerated process, given the core
count and the previous cycle's I/O-counter cache.  When process-object
acquisition fails (line 361), the minimal entry of lines 367-371 is
produced (its status is `proc.info['status']`, the enumerated raw status,
since `process_iter` was asked for the `status` field). -/
def sampleOne (cpu_cores : Nat) (prevIo : List (Nat × IOC)) (p : ProcInput) : SampleData :=
  if p.acquireOk = false then
    { ppid := p.ppid, name := p.name, status := p.rawStatus,
      cpu_percent := 0, mem_ws_kb := 0, delta_read_bytes := 0, delta_write_bytes := 0 }
  else
    let status0 := p.rawStatus
    let cpuVal : ℚ :=
      match p.cpuFetch with
      | .ok raw => min 100 (if cpu_cores > 0 then raw / (cpu_cores : ℚ) else raw)
      | .fail => 0
    let status1 :=
      match p.cpuFetch with
      | .ok _ => status0
      | .fail => if status0 ∈ reservedAfterCpu then status0 else "cpu error"
    let ws : Nat :=
      match p.memFetch with
      | .ok rss => rss / 1024
      | .fail => 0
    let status2 :=
      match p.memFetch with
      | .ok _ => status1
      | .fail => if status1 ∈ reservedAfterMem then status1 else "mem error"
    let dr : Int :=
      match p.ioFetch with
      | .ok c =>
        match alookup p.pid prevIo with
        | some pv => max 0 (c.read_bytes - pv.read_bytes)
        | none => 0
      | _ => 0
    let dw : Int :=
      match p.ioFetch with
      | .ok c =>
        match alookup p.pid prevIo with
        | some pv => max 0 (c.write_bytes - pv.write_bytes)
        | none => 0
      | _ => 0
    let status3 :=
      match p.ioFetch with
      | .ok _ => status2
      | .failSpecific => if status2 ∈ reservedAfterIo then status2 else "io error"
      | .failGeneric => if status2 ∈ reservedAfterFetch then status2 else "fetch error"
    { ppid := p.ppid, name := p.name, status := status3,
      cpu_percent := cpuVal, mem_ws_kb := ws, delta_read_bytes := dr, delta_write_bytes := dw }

/-- The whole collection phase: one `current_snapshot_data` entry per
enumerated process, keyed by pid (line 438 / line 367). -/
def collectSamples (cpu_cores : Nat) (prevIo : List (Nat × IOC))
    (inputs : List ProcInput) : List (Nat × SampleData) :=
  inputs.map (fun p => (p.pid, sampleOne cpu_cores prevIo p))

/-- Entries written into `current_io_snapshot` by the main loop
(line 413): pids whose `io_counters()` fetch succeeded. -/
def mainIoEntries (inputs : List ProcInput) : List (Nat × IOC) :=
  inputs.filterMap (fun p =>
    if p.acquireOk then
      match p.ioFetch with
      | .ok c => some (p.pid, c)
      | _ => none
    else none)

/-- Entries written into `current_io_snapshot` (and, transiently, into
`previous_io_counters`) by the priming pass (lines 456-466): newly cached
pids whose priming `io_counters()` call succeeded. -/
def primedIoEntries (inputs : List ProcInput) : List (Nat × IOC) :=
  inputs.filterMap (fun p =>
    if p.acquireOk && p.newlyCached then
      match p.primeFetch with
      | some c => some (p.pid, c)
      | none => none
    else none)

/-- The counter cache after the cycle: line 487 replaces
`previous_io_counters` wholesale with `current_io_snapshot`, whose
priming writes (line 466) override the main-loop writes (line 413).
Putting the priming entries first gives them lookup priority, matching
the overwriting `dict` assignment. -/
def nextIoCache (inputs : List ProcInput) : List (Nat × IOC) :=
  primedIoEntries inputs ++ mainIoEntries inputs

/-- A baseline value that was actually fetched from the OS for process
`p` during the current cycle: either the main-loop `io_counters()` value
(line 411) or the priming value (line 464). -/
def FetchedThisCycle (p : ProcInput) (v : IOC) : Prop :=
  (p.acquireOk = true ∧ p.ioFetch = .ok v) ∨
  (p.acquireOk = true ∧ p.newlyCached = true ∧ p.primeFetch = some v)

/-- A snapshot: the `current_snapshot_data` dict, pid-keyed. -/
abbrev Snap : Type := List (Nat × SampleData)

/-- The root test of lines 520-523: a pid is a root candidate iff its
`ppid` is `None`, the sentinel `0`, or not a pid of the current
snapshot. -/
def isRootTest (snap : Snap) (d : SampleData) : Bool :=
  match d.ppid with
  | none => true
  | some q => q == 0 || !(containsKey snap q)

/-- `root_candidates` (lines 511-523), in snapshot iteration order. -/
def root_candidates (snap : Snap) : List Nat :=
  (snap.filter (fun e => isRootTest snap e.2)).map Prod.fst

/-- `root_pids_to_log` in unfiltered mode (line 563):
`sorted(list(root_candidates))`. -/
def root_pids_to_log (snap : Snap) : List Nat :=
  List.insertionSort (· ≤ ·) (root_candidates snap)

/-- `children_map` (lines 508-518): the children recorded for parent `q`
are the snapshot pids whose `ppid` is `q`, provided `q` is non-`None`,
non-sentinel and itself a snapshot pid. -/
def childrenMapAt (snap : Snap) (q : Nat) : List Nat :=
  (snap.filter (fun e =>
    match e.2.ppid with
    | some r => decide (r ≠ 0) && (r == q) && containsKey snap r
    | none => false)).map Prod.fst

/-- The child list the walk actually iterates (lines 171-172): the
children of `pid` that are present in the snapshot, sorted ascending. -/
def sortedChildrenOf (snap : Snap) (cmap : Nat → List Nat) (pid : Nat) : List Nat :=
  List.insertionSort (· ≤ ·) ((cmap pid).filter (fun c => containsKey snap c))

/-- The subtree totals returned by `log_process_tree` (lines 155, 169,
186-193). -/
structure Totals where
  cpu : ℚ
  ws_kb : Nat
  delta_read_bytes : Int
  delta_write_bytes : Int
  error_count : Nat
deriving Repr, DecidableEq

/-- The zero totals (line 169). -/
def Totals.zero : Totals := ⟨0, 0, 0, 0, 0⟩

/-- The `+=` accumulation of a child's subtree totals (lines 178-182). -/
def Totals.add (a b : Totals) : Totals :=
  ⟨a.cpu + b.cpu, a.ws_kb + b.ws_kb, a.delta_read_bytes + b.delta_read_bytes,
   a.delta_write_bytes + b.delta_write_bytes, a.error_count + b.error_count⟩

/-- The status strings counted as errors for a present node (line 192). -/
def errStatuses : List String :=
  ["access denied", "error", "fetch error", "cpu error", "mem error", "io error"]

/-- `log_process_tree` (lines 141-248), aggregation part.  The fuel
argument stands in for the call stack; the walk from a root of a
snapshot-derived children map never exhausts fuel `|snap| + 1`
(see `walk_stable_of_walkBound`).  A pid absent from the snapshot yields
the zero totals with `error_count = 1` (line 155); a present pid returns
its own metrics plus the accumulated totals of its sorted live children
(lines 168-193). -/
def log_process_tree (snap : Snap) (cmap : Nat → List Nat) : Nat → Nat → Totals
  | 0, _ => Totals.zero
  | f + 1, pid =>
    match alookup pid snap with
    | none => ⟨0, 0, 0, 0, 1⟩
    | some d =>
      let ct := (sortedChildrenOf snap cmap pid).foldl
        (fun acc c => Totals.add acc (log_process_tree snap cmap f c)) Totals.zero
      ⟨d.cpu_percent + ct.cpu, d.mem_ws_kb + ct.ws_kb,
       d.delta_read_bytes + ct.delta_read_bytes,
       d.delta_write_bytes + ct.delta_write_bytes,
       (if d.status ∈ errStatuses then 1 else 0) + ct.error_count⟩

/-- The pids for which `log_process_tree` writes a line, in write order:
a missing pid writes its terminated/missing line (line 151); a present
pid writes its children's lines first (recursion at line 177) and then
its own (line 246). -/
def tree_visited (snap : Snap) (cmap : Nat → List Nat) : Nat → Nat → List Nat
  | 0, _ => []
  | f + 1, pid =>
    match alookup pid snap with
    | none => [pid]
    | some _ =>
      ((sortedChildrenOf snap cmap pid).flatMap (fun c => tree_visited snap cmap f c)) ++ [pid]

/-- Whether a line written for `x` counts towards the subtree error
total: pids absent from the snapshot count 1 (line 155); present pids
count 1 iff their status is in the error list of line 192. -/
def isErrNode (snap : Snap) (x : Nat) : Bool :=
  match alookup x snap with
  | none => true
  | some d => decide (d.status ∈ errStatuses)

/-- `INDENT_STRING` (line 25). -/
def INDENT_STRING : String := "  "

/-- The indentation string at a given recursion depth: the walk starts
with `indent = ""` (line 580) and each recursive call appends
`INDENT_STRING` (line 177). -/
def indentAt : Nat → String
  | 0 => ""
  | d + 1 => indentAt d ++ INDENT_STRING

/-- `name_field_length = max(1, 45 - len(indent))` (lines 150, 227),
computed over `Int` as Python does. -/
def name_field_length (indent : String) : Int :=
  max 1 (45 - (indent.length : Int))

/-- The width of the slice actually taken from the display name by the
truncation logic of lines 230-235: `name[:nfl-3]` when the name
overflows a field wider than 3, `name[:nfl]` when it overflows a
narrower field, and the whole name otherwise. -/
def truncSliceWidth (nameLen : Nat) (nfl : Int) : Int :=
  if (nameLen : Int) > nfl ∧ nfl > 3 then nfl - 3
  else if (nameLen : Int) > nfl then nfl
  else (nameLen : Int)

/-- The first failing detail fetch's category, following the spec's
closed enumeration and strict first-failure-wins precedence (fetch order
cpu, then memory, then I/O); `none` when every fetch succeeded.  This is
the spec-side description that the source's cascading status guards are
proved to refine. -/
def specFirstFailureCategory (p : ProcInput) : Option String :=
  match p.cpuFetch with
  | .fail => some "cpu error"
  | .ok _ =>
    match p.memFetch with
    | .fail => some "mem error"
    | .ok _ =>
      match p.ioFetch with
      | .failSpecific => some "io error"
      | .failGeneric => some "fetch error"
      | .ok _ => none

/-- The raw statuses that `psutil` never reports: the strings the source
reserves for its own failure annotations.  The enumerated `status` field
of a live process is never one of these. -/
def allReservedStatuses : List String :=
  ["terminated", "access denied", "cpu error", "mem error", "io error", "fetch error"]

/-- The closed set of failure-status categories named by the spec
(`access-denied`, `cpu-error`, `mem-error`, `io-error`, `fetch-error`),
as the source spells them. -/
def closedErrorCategories : List String :=
  ["access denied", "cpu error", "mem error", "io error", "fetch error"]

/-- The parent function induced by the children index: `pf snap x = some q`
iff the forest builder (line 517) records `x` as a child of `q`, i.e.
`x`'s declared parent is `q`, `q` is non-sentinel and live.  Each pid has
at most one parent, so the children index is the graph of this partial
function. -/
def pf (snap : Snap) (x : Nat) : Option Nat :=
  match alookup x snap with
  | some d =>
    match d.ppid with
    | some q => if q ≠ 0 ∧ containsKey snap q then some q else none
    | none => none
  | none => none

/-- Iterated parent: climb the parent function `n` steps. -/
def pfIter (snap : Snap) : Nat → Nat → Option Nat
  | 0, x => some x
  | n + 1, x =>
    match pf snap x with
    | some y => pfIter snap n y
    | none => none

/-- A pid whose upward parent chain terminates (reaches a pid with no
live non-sentinel parent).  Roots are grounded, and groundedness is
inherited downward along child links. -/
def Grounded (snap : Snap) (x : Nat) : Prop :=
  ∃ N, pfIter snap N x = none

/-- The exact length of the upward parent chain of `x`: the chain dies
at step `N` and at no earlier step. -/
def ChainDies (snap : Snap) (N x : Nat) : Prop :=
  pfIter snap N x = none ∧ ∀ k < N, pfIter snap k x ≠ none

/-- Downward reachability through the children index built by the forest
builder: `ReachesDown snap r x` iff `x` is in the subtree of `r`. -/
inductive ReachesDown (snap : Snap) : Nat → Nat → Prop
  | refl (p : Nat) : ReachesDown snap p p
  | step {r q c : Nat} : ReachesDown snap r q → c ∈ childrenMapAt snap q →
      ReachesDown snap r c

/-- A parent-link cycle among live pids: a nonempty set of snapshot pids
each of whose declared parent is a non-sentinel member of the set (e.g.
two processes that are each other's parent, or a non-sentinel
self-parent). -/
abbrev IsParentCycle (snap : Snap) (S : List Nat) : Prop :=
  S ≠ [] ∧ ∀ p ∈ S, p ∈ keysOf snap ∧
    ∃ q ∈ S, q ≠ 0 ∧ (alookup p snap).bind SampleData.ppid = some q

/-- A bound on the recursion depth of `log_process_tree` below a pid:
missing pids recurse no further, present pids recurse into their sorted
live children. -/
inductive WalkBound (snap : Snap) (cmap : Nat → List Nat) : Nat → Nat → Prop
  | missing {pid d : Nat} : alookup pid snap = none → WalkBound snap cmap pid (d + 1)
  | node {pid d : Nat} :
      (∀ c ∈ sortedChildrenOf snap cmap pid, WalkBound snap cmap c d) →
      WalkBound snap cmap pid (d + 1)

/-- The `current_io_snapshot` value the main loop records for a process
(line 413): present iff the process object was acquired and its
`io_counters()` fetch succeeded. -/
def mainIoVal (p : ProcInput) : Option IOC :=
  if p.acquireOk then
    match p.ioFetch with
    | .ok c => some c
    | _ => none
  else none

/-- The value the priming pass records for a process (lines 464-466):
present iff the pid was newly cached and the priming fetch succeeded. -/
def primedIoVal (p : ProcInput) : Option IOC :=
  if p.acquireOk && p.newlyCached then
    match p.primeFetch with
    | some c => some c
    | none => none
  else none

/-- Concrete sampler fixture used by witnesses: pid 6, newly cached,
all fetches succeed, priming succeeds with counters (12400, 700). -/
def exProcNew : ProcInput :=
  { pid := 6, ppid := some 1, name := "new", rawStatus := "running",
    acquireOk := true, newlyCached := true, cpuFetch := CpuFetch.ok 10,
    memFetch := MemFetch.ok 2048, ioFetch := IoFetch.ok ⟨12345, 678⟩,
    primeFetch := some ⟨12400, 700⟩ }

/-- Concrete sampler fixture used by witnesses: pid 4, CPU fetch
succeeds, memory fetch fails, I/O fetch fails with a specific error. -/
def exProcMemFail : ProcInput :=
  { pid := 4, ppid := some 1, name := "m", rawStatus := "running",
    acquireOk := true, newlyCached := false, cpuFetch := CpuFetch.ok 50,
    memFetch := MemFetch.fail, ioFetch := IoFetch.failSpecific,
    primeFetch := none }

/-- Concrete snapshot fixture: root 1 with children 2 (running, cpu 70)
and 3 (cpu error, cpu 5); own cpu 80.  The subtree cpu sum is 155. -/
def exSnapTree : Snap :=
  [(1, ⟨some 0, "root", "running", 80, 10, 5, 6⟩),
   (2, ⟨some 1, "kid2", "running", 70, 20, 7, 8⟩),
   (3, ⟨some 1, "kid3", "cpu error", 5, 30, 9, 10⟩)]

/-- Concrete snapshot fixture with a parent-link cycle: pids 2 and 3 are
each other's parent; pid 1 is the only root. -/
def exSnapCycle : Snap :=
  [(1, ⟨some 0, "init", "running", 1, 1, 0, 0⟩),
   (2, ⟨some 3, "a", "running", 1, 1, 0, 0⟩),
   (3, ⟨some 2, "b", "running", 1, 1, 0, 0⟩)]

/-! ### Association-list lemmas -/

@[simp] theorem alookup_nil {α : Type} (k : Nat) : alookup k ([] : List (Nat × α)) = none := rfl

@[simp] theorem alookup_cons {α : Type} (k : Nat) (e : Nat × α) (t : List (Nat × α)) :
    alookup k (e :: t) = if e.1 = k then some e.2 else alookup k t := rfl

theorem alookup_eq_some_mem {α : Type} {k : Nat} {m : List (Nat × α)} {v : α}
    (h : alookup k m = some v) : (k, v) ∈ m := by
  induction m with
  | nil => simp at h
  | cons e t ih =>
    by_cases he : e.1 = k
    · simp [alookup, he] at h
      subst h
      have : e = (k, e.2) := by
        cases e with
        | mk a b => simp at he ⊢; exact he
      rw [← this]
      exact List.mem_cons_self e t
    · simp [alookup, he] at h
      exact List.mem_cons_of_mem _ (ih h)

theorem alookup_isSome_iff {α : Type} {k : Nat} {m : List (Nat × α)} :
    (alookup k m).isSome = true ↔ k ∈ keysOf m := by
  induction m with
  | nil => simp [keysOf]
  | cons e t ih =>
    by_cases he : e.1 = k
    · simp [alookup, he, keysOf]
    · simp only [alookup, he, if_false, keysOf, List.map_cons, List.mem_cons]
      rw [ih]
      constructor
      · intro h
        exact Or.inr h
      · rintro (h | h)
        · exact absurd h.symm he
        · exact h

theorem containsKey_iff_mem_keys {α : Type} {k : Nat} {m : List (Nat × α)} :
    containsKey m k = true ↔ k ∈ keysOf m := alookup_isSome_iff

theorem alookup_eq_none_iff {α : Type} {k : Nat} {m : List (Nat × α)} :
    alookup k m = none ↔ k ∉ keysOf m := by
  rw [← alookup_isSome_iff, Option.isSome_iff_exists]
  constructor
  · intro h hex
    rcases hex with ⟨v, hv⟩
    simp [h] at hv
  · intro h
    cases hl : alookup k m with
    | none => rfl
    | some v => exact absurd ⟨v, hl⟩ h

theorem mem_alookup_of_nodup {α : Type} {k : Nat} {v : α} {m : List (Nat × α)}
    (hnd : NodupKeys m) (h : (k, v) ∈ m) : alookup k m = some v := by
  induction m with
  | nil => simp at h
  | cons e t ih =>
    rcases List.mem_cons.mp h with h | h
    · subst h
      simp [alookup]
    · have hk : k ∈ keysOf t := List.mem_map.mpr ⟨(k, v), h, rfl⟩
      have hne : e.1 ≠ k := by
        intro he
        have := (List.nodup_cons.mp hnd).1
        rw [he] at this
        exact this hk
      have hnd' : NodupKeys t := (List.nodup_cons.mp hnd).2
      simp [alookup, hne]
      exact ih hnd' h

theorem alookup_append {α : Type} (k : Nat) (l₁ l₂ : List (Nat × α)) :
    alookup k (l₁ ++ l₂) =
      match alookup k l₁ with
      | some v => some v
      | none => alookup k l₂ := by
  induction l₁ with
  | nil => simp
  | cons e t ih =>
    by_cases he : e.1 = k <;> simp [alookup, he, ih]

theorem keysOf_filterMap_subset {β : Type} (h : ProcInput → Option (Nat × β))
    (hkey : ∀ q e, h q = some e → e.1 = q.pid) (inputs : List ProcInput) :
    ∀ k ∈ keysOf (inputs.filterMap h), k ∈ inputs.map ProcInput.pid := by
  intro k hk
  rcases List.mem_map.mp hk with ⟨e, he, rfl⟩
  rcases List.mem_filterMap.mp he with ⟨q, hq, hqe⟩
  exact List.mem_map.mpr ⟨q, hq, (hkey q e hqe).symm⟩

/-- With distinct input pids, looking up `p.pid` in an assoc list built
by a pid-keyed `filterMap` over the inputs yields exactly `p`'s entry. -/
theorem alookup_filterMap_of_nodup {β : Type} (h : ProcInput → Option (Nat × β))
    (hkey : ∀ q e, h q = some e → e.1 = q.pid) {inputs : List ProcInput} {p : ProcInput}
    (hnd : (inputs.map ProcInput.pid).Nodup) (hp : p ∈ inputs) :
    alookup p.pid (inputs.filterMap h) = (h p).map Prod.snd := by
  induction inputs with
  | nil => simp at hp
  | cons q t ih =>
    have hnd' : (t.map ProcInput.pid).Nodup := (List.nodup_cons.mp hnd).2
    have hqt : q.pid ∉ t.map ProcInput.pid := (List.nodup_cons.mp hnd).1
    rcases List.mem_cons.mp hp with rfl | hpt
    · have hnone : alookup p.pid (t.filterMap h) = none := by
        rw [alookup_eq_none_iff]
        intro hk
        exact hqt (keysOf_filterMap_subset h hkey t _ hk)
      cases hv : h p with
      | none => simp [List.filterMap_cons, hv, hnone]
      | some e =>
        have he1 : e.1 = p.pid := hkey p e hv
        simp [List.filterMap_cons, hv, alookup, he1]
    · have hne : q.pid ≠ p.pid := by
        intro he
        exact hqt (he ▸ List.mem_map.mpr ⟨p, hpt, rfl⟩)
      cases hv : h q with
      | none => simp [List.filterMap_cons, hv, ih hnd' hpt]
      | some e =>
        have he1 : e.1 = q.pid := hkey q e hv
        rw [List.filterMap_cons, hv]
        simp only [alookup_cons, he1, hne, if_false]
        exact ih hnd' hpt

/-! ### Sampler lemmas -/

theorem alookup_map_pid_of_nodup {β : Type} (f : ProcInput → β) {inputs : List ProcInput}
    {p : ProcInput} (hnd : (inputs.map ProcInput.pid).Nodup) (hp : p ∈ inputs) :
    alookup p.pid (inputs.map (fun q => (q.pid, f q))) = some (f p) := by
  induction inputs with
  | nil => simp at hp
  | cons q t ih =>
    have hnd' : (t.map ProcInput.pid).Nodup := (List.nodup_cons.mp hnd).2
    have hqt : q.pid ∉ t.map ProcInput.pid := (List.nodup_cons.mp hnd).1
    rcases List.mem_cons.mp hp with rfl | hpt
    · simp [alookup]
    · have hne : q.pid ≠ p.pid := by
        intro he
        exact hqt (he ▸ List.mem_map.mpr ⟨p, hpt, rfl⟩)
      simp only [List.map_cons, alookup_cons, hne, if_false]
      exact ih hnd' hpt

theorem alookup_mainIoEntries {inputs : List ProcInput} {p : ProcInput}
    (hnd : (inputs.map ProcInput.pid).Nodup) (hp : p ∈ inputs) :
    alookup p.pid (mainIoEntries inputs) = mainIoVal p := by
  have h := alookup_filterMap_of_nodup
    (fun q => if q.acquireOk then
        match q.ioFetch with
        | .ok c => some (q.pid, c)
        | _ => none
      else none)
    (by
      intro q e he
      by_cases ha : q.acquireOk <;> simp [ha] at he
      cases hio : q.ioFetch <;> simp [hio] at he
      subst he
      rfl) hnd hp
  rw [mainIoEntries, h, mainIoVal]
  by_cases ha : p.acquireOk <;> simp [ha]
  cases hio : p.ioFetch <;> simp

theorem alookup_primedIoEntries {inputs : List ProcInput} {p : ProcInput}
    (hnd : (inputs.map ProcInput.pid).Nodup) (hp : p ∈ inputs) :
    alookup p.pid (primedIoEntries inputs) = primedIoVal p := by
  have h := alookup_filterMap_of_nodup
    (fun q => if q.acquireOk && q.newlyCached then
        match q.primeFetch with
        | some c => some (q.pid, c)
        | none => none
      else none)
    (by
      intro q e he
      by_cases ha : q.acquireOk && q.newlyCached <;> simp [ha] at he
      cases hio : q.primeFetch <;> simp [hio] at he
      subst he
      rfl) hnd hp
  rw [primedIoEntries, h, primedIoVal]
  by_cases ha : p.acquireOk && p.newlyCached <;> simp [ha]
  cases hio : p.primeFetch <;> simp

theorem alookup_nextIoCache {inputs : List ProcInput} {p : ProcInput}
    (hnd : (inputs.map ProcInput.pid).Nodup) (hp : p ∈ inputs) :
    alookup p.pid (nextIoCache inputs) =
      match primedIoVal p with
      | some v => some v
      | none => mainIoVal p := by
  rw [nextIoCache, alookup_append, alookup_primedIoEntries hnd hp,
    alookup_mainIoEntries hnd hp]
  cases primedIoVal p <;> rfl

/-! ### Claim C5: clamped I/O deltas -/

/-- C5: for a process whose pid has a cached previous-counter entry, the
reported I/O delta is `max 0 (current - previous)` for both read and
write bytes, hence never negative even when the counter regresses. -/
theorem C5_delta_is_clamped_difference (cores : Nat) (prevIo : List (Nat × IOC))
    (p : ProcInput) (c pv : IOC) (hacq : p.acquireOk = true)
    (hio : p.ioFetch = IoFetch.ok c) (hprev : alookup p.pid prevIo = some pv) :
    (sampleOne cores prevIo p).delta_read_bytes = max 0 (c.read_bytes - pv.read_bytes) ∧
    (sampleOne cores prevIo p).delta_write_bytes = max 0 (c.write_bytes - pv.write_bytes) ∧
    0 ≤ (sampleOne cores prevIo p).delta_read_bytes ∧
    0 ≤ (sampleOne cores prevIo p).delta_write_bytes := by
  simp only [sampleOne, hacq, hio, hprev]
  refine ⟨rfl, rfl, ?_, ?_⟩ <;> simp

/-- C5 witness: previous read bytes 1000, current 800 (counter reset)
yields delta 0, not a negative value. -/
theorem C5_witness :
    (sampleOne 4 [(5, ⟨1000, 50⟩)]
      { pid := 5, ppid := some 1, name := "a", rawStatus := "running",
        acquireOk := true, newlyCached := false, cpuFetch := CpuFetch.ok 200,
        memFetch := MemFetch.ok 4096, ioFetch := IoFetch.ok ⟨800, 70⟩,
        primeFetch := none }).delta_read_bytes = max 0 (800 - 1000) ∧
    max (0 : Int) (800 - 1000) = 0 := by
  constructor
  · exact (C5_delta_is_clamped_difference 4 [(5, ⟨1000, 50⟩)]
      { pid := 5, ppid := some 1, name := "a", rawStatus := "running",
        acquireOk := true, newlyCached := false, cpuFetch := CpuFetch.ok 200,
        memFetch := MemFetch.ok 4096, ioFetch := IoFetch.ok ⟨800, 70⟩,
        primeFetch := none } ⟨800, 70⟩ ⟨1000, 50⟩ rfl rfl (by decide)).1
  · decide

/-! ### Claim C7: CPU share in [0, 100] -/

theorem one_le_get_cpu_cores (osCount : Option Nat) : 1 ≤ get_cpu_cores osCount := by
  match osCount with
  | none => exact le_refl 1
  | some 0 => exact le_refl 1
  | some (n + 1) => exact Nat.succ_le_succ (Nat.zero_le n)

/-- C7: the stored per-process CPU share (raw collaborator percentage
divided by the logical core count, the count being `get_cpu_cores` of
whatever the OS reported) lies in [0, 100], provided the collaborator
reports a nonnegative raw percentage. -/
theorem C7_cpu_share_in_range (osCount : Option Nat) (prevIo : List (Nat × IOC))
    (p : ProcInput) (hraw : ∀ raw, p.cpuFetch = CpuFetch.ok raw → 0 ≤ raw) :
    0 ≤ (sampleOne (get_cpu_cores osCount) prevIo p).cpu_percent ∧
    (sampleOne (get_cpu_cores osCount) prevIo p).cpu_percent ≤ 100 := by
  by_cases hacq : p.acquireOk
  · cases hcf : p.cpuFetch with
    | fail =>
      simp only [sampleOne, hacq, hcf]
      norm_num
    | ok raw =>
      have hcores : 0 < get_cpu_cores osCount := one_le_get_cpu_cores osCount
      have hrawpos : 0 ≤ raw := hraw raw hcf
      have hcast : (0 : ℚ) < (get_cpu_cores osCount : ℚ) := by
        exact_mod_cast hcores
      simp only [sampleOne, hacq, hcf, if_neg, hcores, if_pos]
      constructor
      · simp only [Bool.not_eq_true] at *
        refine le_min (by norm_num) ?_
        have h0 : (0 : ℚ) ≤ raw / (get_cpu_cores osCount : ℚ) :=
          div_nonneg hrawpos (le_of_lt hcast)
        simp [hacq, h0]
      · have h100 := min_le_left (100 : ℚ) (raw / (get_cpu_cores osCount : ℚ))
        simp [hacq, h100]
  · simp only [Bool.not_eq_true] at hacq
    simp [sampleOne, hacq]

/-- C7 witness: a process reporting 250% of all cores on a detected
2-core machine stores min(100, 125) = 100, inside [0, 100]. -/
theorem C7_witness :
    0 ≤ (sampleOne (get_cpu_cores (some 2)) []
      { pid := 5, ppid := some 1, name := "a", rawStatus := "running",
        acquireOk := true, newlyCached := false, cpuFetch := CpuFetch.ok 250,
        memFetch := MemFetch.ok 4096, ioFetch := IoFetch.ok ⟨0, 0⟩,
        primeFetch := none }).cpu_percent ∧
    (sampleOne (get_cpu_cores (some 2)) []
      { pid := 5, ppid := some 1, name := "a", rawStatus := "running",
        acquireOk := true, newlyCached := false, cpuFetch := CpuFetch.ok 250,
        memFetch := MemFetch.ok 4096, ioFetch := IoFetch.ok ⟨0, 0⟩,
        primeFetch := none }).cpu_percent ≤ 100 :=
  C7_cpu_share_in_range (some 2) []
    { pid := 5, ppid := some 1, name := "a", rawStatus := "running",
      acquireOk := true, newlyCached := false, cpuFetch := CpuFetch.ok 250,
      memFetch := MemFetch.ok 4096, ioFetch := IoFetch.ok ⟨0, 0⟩,
      primeFetch := none }
    (by intro raw hr; cases hr; norm_num)

/-! ### Claim C9: name-field width is positive -/

/-- C9: at every recursion depth the name-field width
`max(1, 45 - len(indent))` is at least 1, and the name-truncation slice
width is never negative. -/
theorem C9_name_field_width_safe (depth nameLen : Nat) :
    1 ≤ name_field_length (indentAt depth) ∧
    0 ≤ truncSliceWidth nameLen (name_field_length (indentAt depth)) := by
  constructor
  · exact le_max_left 1 _
  · have h1 : (1 : Int) ≤ name_field_length (indentAt depth) := le_max_left 1 _
    unfold truncSliceWidth
    split_ifs with h2 h3
    · omega
    · omega
    · exact Int.natCast_nonneg nameLen

/-! ### Claim C3: root classification -/

theorem isRootTest_iff (snap : Snap) (d : SampleData) :
    isRootTest snap d = true ↔
      (d.ppid = none ∨ d.ppid = some 0 ∨
        ∃ q, d.ppid = some q ∧ containsKey snap q = false) := by
  unfold isRootTest
  cases hpp : d.ppid with
  | none => simp
  | some q =>
    by_cases hq : q = 0
    · simp [hq]
    · by_cases hck : containsKey snap q <;> simp [hq, hck]

/-- C3: with the snapshot built this cycle, a pid is classified as a
root (and hence logged as its own top-level tree in unfiltered mode) iff
its declared parent is `None`, the sentinel `0`, or not a key of the
snapshot — a process whose parent is not live is promoted to root, not
dropped. -/
theorem C3_root_iff_parent_unresolvable (snap : Snap) (pid : Nat) (d : SampleData)
    (hnd : NodupKeys snap) (hmem : (pid, d) ∈ snap) :
    pid ∈ root_pids_to_log snap ↔
      (d.ppid = none ∨ d.ppid = some 0 ∨
        ∃ q, d.ppid = some q ∧ containsKey snap q = false) := by
  rw [root_pids_to_log, (List.perm_insertionSort _ _).mem_iff]
  constructor
  · intro h
    rcases List.mem_map.mp h with ⟨e, he, hfst⟩
    rcases List.mem_filter.mp he with ⟨hesnap, hroot⟩
    have he2 : e.2 = d := by
      have hpe : (pid, e.2) ∈ snap := by
        have : e = (pid, e.2) := by
          cases e
          simp at hfst ⊢
          exact hfst
        rw [← this]
        exact hesnap
      have h1 := mem_alookup_of_nodup hnd hpe
      have h2 := mem_alookup_of_nodup hnd hmem
      rw [h1] at h2
      exact Option.some_injective _ h2
    rw [← (isRootTest_iff snap d), ← he2]
    exact hroot
  · intro h
    apply List.mem_map.mpr
    refine ⟨(pid, d), List.mem_filter.mpr ⟨hmem, ?_⟩, rfl⟩
    exact (isRootTest_iff snap d).mpr h

/-- C3 witness: in a snapshot where pid 7 declares parent 9 and 9 is not
live, 7 is classified as a root. -/
theorem C3_witness :
    7 ∈ root_pids_to_log
      [(1, ⟨some 0, "init", "running", 1, 1, 0, 0⟩),
       (7, ⟨some 9, "orphan", "running", 1, 1, 0, 0⟩)] := by
  have h := C3_root_iff_parent_unresolvable
    [(1, ⟨some 0, "init", "running", 1, 1, 0, 0⟩),
     (7, ⟨some 9, "orphan", "running", 1, 1, 0, 0⟩)]
    7 ⟨some 9, "orphan", "running", 1, 1, 0, 0⟩ (by decide) (by decide)
  exact h.mpr (Or.inr (Or.inr ⟨9, rfl, by decide⟩))

/-! ### Claims C4 and C8: the counter cache -/

theorem mainIoVal_eq_some_iff {p : ProcInput} {v : IOC} :
    mainIoVal p = some v ↔ p.acquireOk = true ∧ p.ioFetch = IoFetch.ok v := by
  unfold mainIoVal
  by_cases ha : p.acquireOk <;> simp [ha]
  cases hio : p.ioFetch <;> simp

theorem primedIoVal_eq_some_iff {p : ProcInput} {v : IOC} :
    primedIoVal p = some v ↔
      p.acquireOk = true ∧ p.newlyCached = true ∧ p.primeFetch = some v := by
  unfold primedIoVal
  by_cases ha : p.acquireOk && p.newlyCached
  · rcases Bool.and_eq_true_iff.mp ha with ⟨h1, h2⟩
    simp [ha, h1, h2]
    cases hio : p.primeFetch <;> simp
  · rw [if_neg ha]
    simp only [Bool.and_eq_true_iff] at ha
    constructor
    · intro h
      exact absurd h (by simp)
    · intro ⟨h1, h2, _⟩
      exact absurd ⟨h1, h2⟩ ha

/-- C4: a process id with no previous-counter entry reports zero read
and write deltas this cycle, whatever its fetched cumulative counters
are, and a counter value fetched for it this cycle is stored as the
baseline for the next cycle. -/
theorem C4_first_observation_zero_delta (cores : Nat) (prevIo : List (Nat × IOC))
    (inputs : List ProcInput) (p : ProcInput) (c : IOC)
    (hnd : (inputs.map ProcInput.pid).Nodup) (hp : p ∈ inputs)
    (hacq : p.acquireOk = true) (hio : p.ioFetch = IoFetch.ok c)
    (hfirst : alookup p.pid prevIo = none) :
    (sampleOne cores prevIo p).delta_read_bytes = 0 ∧
    (sampleOne cores prevIo p).delta_write_bytes = 0 ∧
    ∃ v, alookup p.pid (nextIoCache inputs) = some v ∧ FetchedThisCycle p v := by
  refine ⟨by simp [sampleOne, hacq, hio, hfirst], by simp [sampleOne, hacq, hio, hfirst], ?_⟩
  rw [alookup_nextIoCache hnd hp]
  cases hpv : primedIoVal p with
  | some v =>
    rcases primedIoVal_eq_some_iff.mp hpv with ⟨h1, h2, h3⟩
    exact ⟨v, rfl, Or.inr ⟨h1, h2, h3⟩⟩
  | none =>
    have hm : mainIoVal p = some c := mainIoVal_eq_some_iff.mpr ⟨hacq, hio⟩
    exact ⟨c, by rw [hm], Or.inl ⟨hacq, hio⟩⟩

/-- C4 witness: pid 6 first seen (empty previous cache) with cumulative
counters (12345, 678) reports both deltas as 0 and the fetched counters
become the next cycle's baseline. -/
theorem C4_witness :
    (sampleOne 1 []
      { pid := 6, ppid := some 1, name := "new", rawStatus := "running",
        acquireOk := true, newlyCached := true, cpuFetch := CpuFetch.ok 10,
        memFetch := MemFetch.ok 2048, ioFetch := IoFetch.ok ⟨12345, 678⟩,
        primeFetch := some ⟨12400, 700⟩ }).delta_read_bytes = 0 ∧
    (sampleOne 1 []
      { pid := 6, ppid := some 1, name := "new", rawStatus := "running",
        acquireOk := true, newlyCached := true, cpuFetch := CpuFetch.ok 10,
        memFetch := MemFetch.ok 2048, ioFetch := IoFetch.ok ⟨12345, 678⟩,
        primeFetch := some ⟨12400, 700⟩ }).delta_write_bytes = 0 ∧
    ∃ v, alookup 6 (nextIoCache
      [{ pid := 6, ppid := some 1, name := "new", rawStatus := "running",
         acquireOk := true, newlyCached := true, cpuFetch := CpuFetch.ok 10,
         memFetch := MemFetch.ok 2048, ioFetch := IoFetch.ok ⟨12345, 678⟩,
         primeFetch := some ⟨12400, 700⟩ }]) = some v ∧
      FetchedThisCycle
        { pid := 6, ppid := some 1, name := "new", rawStatus := "running",
          acquireOk := true, newlyCached := true, cpuFetch := CpuFetch.ok 10,
          memFetch := MemFetch.ok 2048, ioFetch := IoFetch.ok ⟨12345, 678⟩,
          primeFetch := some ⟨12400, 700⟩ } v :=
  C4_first_observation_zero_delta 1 []
    [{ pid := 6, ppid := some 1, name := "new", rawStatus := "running",
       acquireOk := true, newlyCached := true, cpuFetch := CpuFetch.ok 10,
       memFetch := MemFetch.ok 2048, ioFetch := IoFetch.ok ⟨12345, 678⟩,
       primeFetch := some ⟨12400, 700⟩ }]
    { pid := 6, ppid := some 1, name := "new", rawStatus := "running",
      acquireOk := true, newlyCached := true, cpuFetch := CpuFetch.ok 10,
      memFetch := MemFetch.ok 2048, ioFetch := IoFetch.ok ⟨12345, 678⟩,
      primeFetch := some ⟨12400, 700⟩ }
    ⟨12345, 678⟩ (by decide) (by simp) rfl rfl rfl

theorem keysOf_append {α : Type} (l₁ l₂ : List (Nat × α)) :
    keysOf (l₁ ++ l₂) = keysOf l₁ ++ keysOf l₂ := List.map_append _ _ _

/-- C8: at the end of the collection phase the previous-counters cache
is replaced by exactly this cycle's observed baselines: every cached
value under a key is a counter value fetched this cycle for a live
process with that pid; pids not enumerated this cycle carry no entry
(eviction); and every process with a fetched baseline has an entry that
was fetched this cycle. -/
theorem C8_cache_wholesale_replacement (inputs : List ProcInput) (k : Nat) (v : IOC)
    (hnd : (inputs.map ProcInput.pid).Nodup) :
    (alookup k (nextIoCache inputs) = some v →
      ∃ p ∈ inputs, p.pid = k ∧ FetchedThisCycle p v) ∧
    (k ∉ inputs.map ProcInput.pid → alookup k (nextIoCache inputs) = none) ∧
    (∀ p ∈ inputs, ∀ w, FetchedThisCycle p w →
      ∃ u, alookup p.pid (nextIoCache inputs) = some u ∧ FetchedThisCycle p u) := by
  refine ⟨?_, ?_, ?_⟩
  · intro h
    have hmem := alookup_eq_some_mem h
    rcases List.mem_append.mp hmem with hmem | hmem
    · rcases List.mem_filterMap.mp hmem with ⟨p, hp, hpe⟩
      by_cases hb : p.acquireOk && p.newlyCached
      · rcases Bool.and_eq_true_iff.mp hb with ⟨h1, h2⟩
        rw [if_pos hb] at hpe
        cases hpf : p.primeFetch with
        | some c => 
          rw [hpf] at hpe
          simp at hpe
          exact ⟨p, hp, hpe.1, Or.inr ⟨h1, h2, by rw [hpf, hpe.2]⟩⟩
        | none => rw [hpf] at hpe; simp at hpe
      · rw [if_neg hb] at hpe
        simp at hpe
    · rcases List.mem_filterMap.mp hmem with ⟨p, hp, hpe⟩
      by_cases hb : p.acquireOk
      · rw [if_pos hb] at hpe
        cases hpf : p.ioFetch with
        | ok c =>
          rw [hpf] at hpe
          simp at hpe
          exact ⟨p, hp, hpe.1, Or.inl ⟨hb, by rw [hpf, hpe.2]⟩⟩
        | failSpecific => rw [hpf] at hpe; simp at hpe
        | failGeneric => rw [hpf] at hpe; simp at hpe
      · simp only [Bool.not_eq_true] at hb
        rw [hb] at hpe
        simp at hpe
  · intro hk
    rw [alookup_eq_none_iff, nextIoCache, keysOf_append]
    intro hmem
    rcases List.mem_append.mp hmem with hmem | hmem
    · exact hk (keysOf_filterMap_subset _
        (by
          intro q e he
          by_cases ha : q.acquireOk && q.newlyCached <;> simp [ha] at he
          cases hio : q.primeFetch <;> simp [hio] at he
          subst he
          rfl) inputs k hmem)
    · exact hk (keysOf_filterMap_subset _
        (by
          intro q e he
          by_cases ha : q.acquireOk <;> simp [ha] at he
          cases hio : q.ioFetch <;> simp [hio] at he
          subst he
          rfl) inputs k hmem)
  · intro p hp w hw
    rw [alookup_nextIoCache hnd hp]
    cases hpv : primedIoVal p with
    | some u =>
      rcases primedIoVal_eq_some_iff.mp hpv with ⟨h1, h2, h3⟩
      exact ⟨u, rfl, Or.inr ⟨h1, h2, h3⟩⟩
    | none =>
      rcases hw with ⟨h1, h2⟩ | ⟨h1, h2, h3⟩
      · exact ⟨w, by rw [mainIoVal_eq_some_iff.mpr ⟨h1, h2⟩], Or.inl ⟨h1, h2⟩⟩
      · exact absurd (primedIoVal_eq_some_iff.mpr ⟨h1, h2, h3⟩) (by rw [hpv]; simp)

/-- C8 witness: a cycle enumerating only pid 6 (newly cached, primed
baseline wins): pid 9, no longer enumerated, has no entry, and the entry
under pid 6 was fetched this cycle. -/
theorem C8_witness :
    (alookup 6 (nextIoCache [exProcNew]) = some ⟨12400, 700⟩ →
      ∃ p ∈ [exProcNew], p.pid = 6 ∧ FetchedThisCycle p ⟨12400, 700⟩) ∧
    (9 ∉ List.map ProcInput.pid [exProcNew] →
      alookup 9 (nextIoCache [exProcNew]) = none) := by
  have h6 := C8_cache_wholesale_replacement [exProcNew] 6 ⟨12400, 700⟩ (by decide)
  have h9 := C8_cache_wholesale_replacement [exProcNew] 9 ⟨12400, 700⟩ (by decide)
  exact ⟨h6.1, h9.2.1⟩

/-! ### Claim C2: one sample per process, first failure wins -/

theorem rawStatus_ne_of_not_mem_all {s : String} (h : s ∉ allReservedStatuses) :
    s ≠ "terminated" ∧ s ≠ "access denied" ∧ s ≠ "cpu error" ∧ s ≠ "mem error" ∧
    s ≠ "io error" ∧ s ≠ "fetch error" := by
  simp only [allReservedStatuses, List.mem_cons, List.not_mem_nil, or_false, not_or] at h
  exact h

/-- C2: every enumerated process yields exactly one sample (looked up by
its pid, never omitted), and when one or more detail fetches fail the
sample's status is the category of the earliest failure — a member of
the closed category set, later failures never overwriting it — while
each failed fetch leaves its metric zeroed. -/
theorem C2_one_sample_first_failure_wins (cores : Nat) (prevIo : List (Nat × IOC))
    (inputs : List ProcInput) (p : ProcInput)
    (hnd : (inputs.map ProcInput.pid).Nodup) (hp : p ∈ inputs) :
    alookup p.pid (collectSamples cores prevIo inputs) = some (sampleOne cores prevIo p) ∧
    (∀ cat, p.acquireOk = true → p.rawStatus ∉ allReservedStatuses →
      specFirstFailureCategory p = some cat →
      (sampleOne cores prevIo p).status = cat ∧ cat ∈ closedErrorCategories) ∧
    (p.cpuFetch = CpuFetch.fail → (sampleOne cores prevIo p).cpu_percent = 0) ∧
    (p.memFetch = MemFetch.fail → (sampleOne cores prevIo p).mem_ws_kb = 0) ∧
    ((p.ioFetch = IoFetch.failSpecific ∨ p.ioFetch = IoFetch.failGeneric) →
      (sampleOne cores prevIo p).delta_read_bytes = 0 ∧
      (sampleOne cores prevIo p).delta_write_bytes = 0) := by
  refine ⟨?_, ?_, ?_, ?_, ?_⟩
  · exact alookup_map_pid_of_nodup (sampleOne cores prevIo) hnd hp
  · intro cat hacq hres hcat
    obtain ⟨hs1, hs2, hs3, hs4, hs5, hs6⟩ := rawStatus_ne_of_not_mem_all hres
    cases hcf : p.cpuFetch <;> cases hmf : p.memFetch <;> cases hif : p.ioFetch <;>
      simp only [specFirstFailureCategory, hcf, hmf, hif] at hcat
    all_goals simp at hcat
    all_goals subst hcat
    all_goals refine ⟨?_, by simp [closedErrorCategories]⟩
    all_goals
      simp [sampleOne, hacq, hcf, hmf, hif, hs1, hs2, hs3, hs4, hs5, hs6,
        reservedAfterCpu, reservedAfterMem, reservedAfterIo, reservedAfterFetch]
  · intro hcf
    by_cases hacq : p.acquireOk
    · simp [sampleOne, hacq, hcf]
    · simp only [Bool.not_eq_true] at hacq
      simp [sampleOne, hacq]
  · intro hmf
    by_cases hacq : p.acquireOk
    · simp [sampleOne, hacq, hmf]
    · simp only [Bool.not_eq_true] at hacq
      simp [sampleOne, hacq]
  · intro hif
    by_cases hacq : p.acquireOk
    · rcases hif with hif | hif <;> simp [sampleOne, hacq, hif]
    · simp only [Bool.not_eq_true] at hacq
      simp [sampleOne, hacq]

/-- C2 witness: a process whose memory fetch fails first and whose I/O
fetch fails afterwards is annotated `mem error` (the earliest failure's
category, not overwritten by the later I/O failure), and its sample is
present in the collected snapshot. -/
theorem C2_witness :
    alookup 4 (collectSamples 2 [] [exProcMemFail]) =
      some (sampleOne 2 [] exProcMemFail) ∧
    (sampleOne 2 [] exProcMemFail).status = "mem error" ∧
    "mem error" ∈ closedErrorCategories ∧
    (sampleOne 2 [] exProcMemFail).mem_ws_kb = 0 := by
  have h := C2_one_sample_first_failure_wins 2 [] [exProcMemFail] exProcMemFail
    (by decide) (by simp)
  have h2 := h.2.1 "mem error" rfl (by decide) rfl
  exact ⟨h.1, h2.1, h2.2, h.2.2.2.1 rfl⟩

/-! ### Subtree aggregation: basic structure -/

theorem foldl_totals_add (g : Nat → Totals) (l : List Nat) (init : Totals) :
    l.foldl (fun acc c => Totals.add acc (g c)) init =
      ⟨init.cpu + (l.map (fun c => (g c).cpu)).sum,
       init.ws_kb + (l.map (fun c => (g c).ws_kb)).sum,
       init.delta_read_bytes + (l.map (fun c => (g c).delta_read_bytes)).sum,
       init.delta_write_bytes + (l.map (fun c => (g c).delta_write_bytes)).sum,
       init.error_count + (l.map (fun c => (g c).error_count)).sum⟩ := by
  induction l generalizing init with
  | nil => cases init; simp
  | cons a t ih =>
    rw [List.foldl_cons, ih]
    cases init
    simp [Totals.add, add_assoc]

/-- Unfolding of `log_process_tree` at a present pid: own metrics plus
the sums of the recursive results over the sorted live children. -/
theorem log_process_tree_succ_of_mem {snap : Snap} {cmap : Nat → List Nat} {f pid : Nat}
    {d : SampleData} (h : alookup pid snap = some d) :
    log_process_tree snap cmap (f + 1) pid =
      ⟨d.cpu_percent +
        ((sortedChildrenOf snap cmap pid).map
          (fun c => (log_process_tree snap cmap f c).cpu)).sum,
       d.mem_ws_kb +
        ((sortedChildrenOf snap cmap pid).map
          (fun c => (log_process_tree snap cmap f c).ws_kb)).sum,
       d.delta_read_bytes +
        ((sortedChildrenOf snap cmap pid).map
          (fun c => (log_process_tree snap cmap f c).delta_read_bytes)).sum,
       d.delta_write_bytes +
        ((sortedChildrenOf snap cmap pid).map
          (fun c => (log_process_tree snap cmap f c).delta_write_bytes)).sum,
       (if d.status ∈ errStatuses then 1 else 0) +
        ((sortedChildrenOf snap cmap pid).map
          (fun c => (log_process_tree snap cmap f c).error_count)).sum⟩ := by
  rw [log_process_tree, h]
  rw [foldl_totals_add (log_process_tree snap cmap f) (sortedChildrenOf snap cmap pid)
    Totals.zero]
  simp [Totals.zero]

theorem log_process_tree_succ_none {snap : Snap} {cmap : Nat → List Nat} {f pid : Nat}
    (h : alookup pid snap = none) :
    log_process_tree snap cmap (f + 1) pid = ⟨0, 0, 0, 0, 1⟩ := by
  simp [log_process_tree, h]

theorem tree_visited_zero (snap : Snap) (cmap : Nat → List Nat) (pid : Nat) :
    tree_visited snap cmap 0 pid = [] := rfl

theorem tree_visited_succ_none {snap : Snap} {cmap : Nat → List Nat} {f pid : Nat}
    (h : alookup pid snap = none) :
    tree_visited snap cmap (f + 1) pid = [pid] := by
  simp [tree_visited, h]

theorem tree_visited_succ_some {snap : Snap} {cmap : Nat → List Nat} {f pid : Nat}
    {d : SampleData} (h : alookup pid snap = some d) :
    tree_visited snap cmap (f + 1) pid =
      ((sortedChildrenOf snap cmap pid).flatMap fun c => tree_visited snap cmap f c)
        ++ [pid] := by
  simp [tree_visited, h]

theorem length_filter_flatMap {α β : Type} (l : List α) (g : α → List β) (p : β → Bool) :
    ((l.flatMap g).filter p).length = (l.map (fun a => ((g a).filter p).length)).sum := by
  induction l with
  | nil => simp
  | cons a t ih => simp [List.flatMap_cons, List.filter_append, ih]

theorem flatMap_congr_mem {α β : Type} {l : List α} {g g' : α → List β}
    (h : ∀ a ∈ l, g a = g' a) : l.flatMap g = l.flatMap g' := by
  induction l with
  | nil => rfl
  | cons a t ih =>
    rw [List.flatMap_cons, List.flatMap_cons, h a (List.mem_cons_self a t),
      ih (fun b hb => h b (List.mem_cons_of_mem a hb))]

/-- The `error_count` returned by the walk counts exactly the visited
nodes whose own status is in the error list (a missing node counting
as one), with multiplicity, at every fuel. -/
theorem error_count_eq_visited_count (snap : Snap) (cmap : Nat → List Nat) :
    ∀ f pid, (log_process_tree snap cmap f pid).error_count =
      ((tree_visited snap cmap f pid).filter (fun x => isErrNode snap x)).length := by
  intro f
  induction f with
  | zero => intro pid; simp [log_process_tree, tree_visited, Totals.zero]
  | succ f ih =>
    intro pid
    cases h : alookup pid snap with
    | none =>
      rw [log_process_tree_succ_none h, tree_visited_succ_none h]
      simp [isErrNode, h]
    | some d =>
      rw [log_process_tree_succ_of_mem h, tree_visited_succ_some h]
      simp only [List.filter_append, List.length_append, length_filter_flatMap]
      have hmap : (sortedChildrenOf snap cmap pid).map
          (fun c => ((tree_visited snap cmap f c).filter (fun x => isErrNode snap x)).length) =
          (sortedChildrenOf snap cmap pid).map
          (fun c => (log_process_tree snap cmap f c).error_count) := by
        apply List.map_congr_left
        intro c _
        exact (ih c).symm
      rw [hmap]
      have hown : (List.filter (fun x => isErrNode snap x) [pid]).length =
          if d.status ∈ errStatuses then 1 else 0 := by
        by_cases he : d.status ∈ errStatuses <;> simp [isErrNode, h, he]
      rw [hown]
      exact Nat.add_comm _ _

/-- The sorted live-children list is insensitive to reordering of the
children map's lists: the walk sorts by pid before visiting. -/
theorem sortedChildrenOf_perm (snap : Snap) {cmap cmap' : Nat → List Nat}
    (hperm : ∀ q, List.Perm (cmap' q) (cmap q)) (pid : Nat) :
    sortedChildrenOf snap cmap' pid = sortedChildrenOf snap cmap pid := by
  unfold sortedChildrenOf
  apply List.eq_of_perm_of_sorted (r := fun a b : Nat => a ≤ b)
  · exact ((List.perm_insertionSort _ _).trans ((hperm pid).filter _)).trans
      (List.perm_insertionSort _ _).symm
  · exact List.sorted_insertionSort _ _
  · exact List.sorted_insertionSort _ _

/-- The whole walk (totals and visit order) is invariant under
reordering of the children map's lists. -/
theorem walk_perm_invariant (snap : Snap) {cmap cmap' : Nat → List Nat}
    (hperm : ∀ q, List.Perm (cmap' q) (cmap q)) :
    ∀ f pid, log_process_tree snap cmap' f pid = log_process_tree snap cmap f pid ∧
      tree_visited snap cmap' f pid = tree_visited snap cmap f pid := by
  intro f
  induction f with
  | zero => intro pid; exact ⟨rfl, rfl⟩
  | succ f ih =>
    intro pid
    cases h : alookup pid snap with
    | none =>
      exact ⟨by rw [log_process_tree_succ_none h, log_process_tree_succ_none h],
        by rw [tree_visited_succ_none h, tree_visited_succ_none h]⟩
    | some d =>
      have hs := sortedChildrenOf_perm snap hperm pid
      have m1 := List.map_congr_left
        (f := fun c => (log_process_tree snap cmap' f c).cpu)
        (g := fun c => (log_process_tree snap cmap f c).cpu)
        (l := sortedChildrenOf snap cmap pid)
        (fun c _ => by
          show (log_process_tree snap cmap' f c).cpu = (log_process_tree snap cmap f c).cpu
          rw [(ih c).1])
      have m2 := List.map_congr_left
        (f := fun c => (log_process_tree snap cmap' f c).ws_kb)
        (g := fun c => (log_process_tree snap cmap f c).ws_kb)
        (l := sortedChildrenOf snap cmap pid)
        (fun c _ => by
          show (log_process_tree snap cmap' f c).ws_kb = (log_process_tree snap cmap f c).ws_kb
          rw [(ih c).1])
      have m3 := List.map_congr_left
        (f := fun c => (log_process_tree snap cmap' f c).delta_read_bytes)
        (g := fun c => (log_process_tree snap cmap f c).delta_read_bytes)
        (l := sortedChildrenOf snap cmap pid)
        (fun c _ => by
          show (log_process_tree snap cmap' f c).delta_read_bytes = (log_process_tree snap cmap f c).delta_read_bytes
          rw [(ih c).1])
      have m4 := List.map_congr_left
        (f := fun c => (log_process_tree snap cmap' f c).delta_write_bytes)
        (g := fun c => (log_process_tree snap cmap f c).delta_write_bytes)
        (l := sortedChildrenOf snap cmap pid)
        (fun c _ => by
          show (log_process_tree snap cmap' f c).delta_write_bytes = (log_process_tree snap cmap f c).delta_write_bytes
          rw [(ih c).1])
      have m5 := List.map_congr_left
        (f := fun c => (log_process_tree snap cmap' f c).error_count)
        (g := fun c => (log_process_tree snap cmap f c).error_count)
        (l := sortedChildrenOf snap cmap pid)
        (fun c _ => by
          show (log_process_tree snap cmap' f c).error_count = (log_process_tree snap cmap f c).error_count
          rw [(ih c).1])
      constructor
      · rw [log_process_tree_succ_of_mem h, log_process_tree_succ_of_mem h, hs,
          m1, m2, m3, m4, m5]
      · rw [tree_visited_succ_some h, tree_visited_succ_some h, hs,
          flatMap_congr_mem (fun c _ => (ih c).2)]

/-! ### The parent function and its iterates -/

theorem pfIter_one (snap : Snap) (x : Nat) : pfIter snap 1 x = pf snap x := by
  cases h : pf snap x <;> simp [pfIter, h]

theorem pfIter_add (snap : Snap) (a b x : Nat) :
    pfIter snap (a + b) x = (pfIter snap a x).bind (pfIter snap b) := by
  induction a generalizing x with
  | zero => simp [pfIter]
  | succ a ih =>
    rw [show a + 1 + b = (a + b) + 1 from by omega]
    cases h : pf snap x with
    | none => simp [pfIter, h]
    | some y => simp [pfIter, h, ih]

theorem pfIter_succ_right (snap : Snap) (n x : Nat) :
    pfIter snap (n + 1) x = (pfIter snap n x).bind (pf snap) := by
  rw [pfIter_add snap n 1]
  cases pfIter snap n x <;> simp [pfIter_one]

theorem pfIter_none_stable {snap : Snap} {a b x : Nat}
    (h : pfIter snap a x = none) (hab : a ≤ b) : pfIter snap b x = none := by
  obtain ⟨c, rfl⟩ := Nat.exists_eq_add_of_le hab
  rw [pfIter_add, h]
  rfl

theorem no_period_of_mortal {snap : Snap} {m N x : Nat}
    (hper : pfIter snap m x = some x) (hm : 1 ≤ m)
    (hN : pfIter snap N x = none) : False := by
  have hq : ∀ q, pfIter snap (q * m) x = some x := by
    intro q
    induction q with
    | zero => simp [pfIter]
    | succ q ih =>
      rw [Nat.succ_mul, pfIter_add, ih]
      exact hper
  have hle : N ≤ N * m := Nat.le_mul_of_pos_right N hm
  have := pfIter_none_stable hN hle
  rw [hq N] at this
  cases this

theorem pf_mem_keys {snap : Snap} {z q : Nat} (h : pf snap z = some q) :
    q ∈ keysOf snap := by
  cases hl : alookup z snap with
  | none => simp [pf, hl] at h
  | some d =>
    cases hpp : d.ppid with
    | none => simp [pf, hl, hpp] at h
    | some r =>
      simp only [pf, hl, hpp] at h
      split_ifs at h with hcond
      have hq : r = q := Option.some_injective _ h
      rw [← hq]
      exact containsKey_iff_mem_keys.mp hcond.2

theorem chainDies_inj {snap : Snap} {N x : Nat} (hc : ChainDies snap N x) :
    ∀ i j, i < N → j < N → pfIter snap i x = pfIter snap j x → i = j := by
  have key : ∀ i j, i < N → j < N → i < j → pfIter snap i x = pfIter snap j x → False := by
    intro i j hi hj hij heq
    obtain ⟨y, hy⟩ : ∃ y, pfIter snap i x = some y := by
      cases h : pfIter snap i x with
      | none => exact absurd h (hc.2 i hi)
      | some y => exact ⟨y, rfl⟩
    have hper : pfIter snap (j - i) y = some y := by
      have h1 : pfIter snap j x = (pfIter snap i x).bind (pfIter snap (j - i)) := by
        rw [← pfIter_add]
        congr 1
        omega
      rw [← heq, hy] at h1
      simp only [Option.some_bind] at h1
      exact h1.symm
    have hmort : pfIter snap (N - i) y = none := by
      have h2 : pfIter snap N x = (pfIter snap i x).bind (pfIter snap (N - i)) := by
        rw [← pfIter_add]
        congr 1
        omega
      rw [hc.1, hy] at h2
      simp only [Option.some_bind] at h2
      exact h2.symm
    exact no_period_of_mortal hper (by omega) hmort
  intro i j hi hj heq
  rcases lt_trichotomy i j with h | h | h
  · exact (key i j hi hj h heq).elim
  · exact h
  · exact (key j i hj hi h heq.symm).elim

theorem chainDies_le_keys {snap : Snap} {N x : Nat}
    (hc : ChainDies snap N x) (hx : x ∈ keysOf snap) :
    N ≤ (keysOf snap).length := by
  have hsome : ∀ i, i < N → ∃ y, pfIter snap i x = some y ∧ y ∈ keysOf snap := by
    intro i hi
    cases h : pfIter snap i x with
    | none => exact absurd h (hc.2 i hi)
    | some y =>
      refine ⟨y, rfl, ?_⟩
      cases i with
      | zero =>
        have : x = y := by
          have : (some x : Option Nat) = some y := h
          exact Option.some_injective _ this
        rw [← this]
        exact hx
      | succ i' =>
        rw [pfIter_succ_right] at h
        cases hz : pfIter snap i' x with
        | none => rw [hz] at h; cases h
        | some z =>
          rw [hz] at h
          exact pf_mem_keys h
  have hcard := Finset.card_le_card_of_injOn (fun i => (pfIter snap i x).getD 0)
    (s := Finset.range N) (t := (keysOf snap).toFinset)
    (by
      intro i hi
      obtain ⟨y, hy, hyk⟩ := hsome i (Finset.mem_range.mp hi)
      simp [hy, hyk])
    (by
      intro i hi j hj hij
      simp only [Finset.coe_range, Set.mem_Iio] at hi hj
      obtain ⟨yi, hyi, _⟩ := hsome i hi
      obtain ⟨yj, hyj, _⟩ := hsome j hj
      have hij' : (pfIter snap i x).getD 0 = (pfIter snap j x).getD 0 := hij
      rw [hyi, hyj] at hij'
      simp only [Option.getD_some] at hij'
      apply chainDies_inj hc i j hi hj
      rw [hyi, hyj, hij'])
  have := List.toFinset_card_le (keysOf snap)
  simp only [Finset.card_range] at hcard
  omega

/-! ### Children, roots, and the parent function -/

theorem mem_childrenMapAt {snap : Snap} {q c : Nat} :
    c ∈ childrenMapAt snap q ↔
      ∃ d, (c, d) ∈ snap ∧ d.ppid = some q ∧ q ≠ 0 ∧ containsKey snap q = true := by
  unfold childrenMapAt
  constructor
  · intro h
    rcases List.mem_map.mp h with ⟨e, he, rfl⟩
    rcases List.mem_filter.mp he with ⟨hes, hcond⟩
    cases hpp : e.2.ppid with
    | none => rw [hpp] at hcond; cases hcond
    | some r =>
      rw [hpp] at hcond
      simp only [Bool.and_eq_true, decide_eq_true_eq, beq_iff_eq] at hcond
      obtain ⟨⟨h1, h2⟩, h3⟩ := hcond
      subst h2
      refine ⟨e.2, ?_, hpp, h1, h3⟩
      cases e
      exact hes
  · rintro ⟨d, hd, hpp, hq0, hck⟩
    apply List.mem_map.mpr
    refine ⟨(c, d), List.mem_filter.mpr ⟨hd, ?_⟩, rfl⟩
    simp [hpp, hq0, hck]

theorem pf_of_child {snap : Snap} {q c : Nat} (hnd : NodupKeys snap)
    (h : c ∈ childrenMapAt snap q) : pf snap c = some q := by
  rcases mem_childrenMapAt.mp h with ⟨d, hd, hpp, hq0, hck⟩
  simp only [pf, mem_alookup_of_nodup hnd hd, hpp, if_pos (And.intro hq0 hck)]

theorem mem_sortedChildrenOf {snap : Snap} {cmap : Nat → List Nat} {pid c : Nat} :
    c ∈ sortedChildrenOf snap cmap pid ↔ c ∈ cmap pid ∧ containsKey snap c = true := by
  unfold sortedChildrenOf
  rw [(List.perm_insertionSort _ _).mem_iff, List.mem_filter]

theorem chainDies_child {snap : Snap} {N pid c : Nat} (hnd : NodupKeys snap)
    (hc : ChainDies snap N pid) (hch : c ∈ childrenMapAt snap pid) :
    ChainDies snap (N + 1) c := by
  have hpf := pf_of_child hnd hch
  constructor
  · simp [pfIter, hpf, hc.1]
  · intro k hk
    cases k with
    | zero => simp [pfIter]
    | succ k' =>
      have hk' : k' < N := by omega
      intro hno
      apply hc.2 k' hk'
      simpa [pfIter, hpf] using hno

theorem root_pf_none {snap : Snap} {pid : Nat} (hnd : NodupKeys snap)
    (h : pid ∈ root_pids_to_log snap) :
    pf snap pid = none ∧ pid ∈ keysOf snap := by
  rw [root_pids_to_log, (List.perm_insertionSort _ _).mem_iff] at h
  rcases List.mem_map.mp h with ⟨e, he, rfl⟩
  rcases List.mem_filter.mp he with ⟨hes, hroot⟩
  have hes' : (e.1, e.2) ∈ snap := by cases e; exact hes
  have hlk : alookup e.1 snap = some e.2 := mem_alookup_of_nodup hnd hes'
  constructor
  · unfold isRootTest at hroot
    cases hpp : e.2.ppid with
    | none => simp [pf, hlk, hpp]
    | some q =>
      rw [hpp] at hroot
      simp only [Bool.or_eq_true, beq_iff_eq, Bool.not_eq_true'] at hroot
      simp only [pf, hlk, hpp]
      rcases hroot with h0 | hf
      · rw [if_neg]
        rintro ⟨h1, -⟩
        exact h1 h0
      · rw [if_neg]
        rintro ⟨-, h2⟩
        rw [hf] at h2
        cases h2
  · exact List.mem_map.mpr ⟨e, hes, rfl⟩

theorem chainDies_of_root {snap : Snap} {pid : Nat} (hnd : NodupKeys snap)
    (h : pid ∈ root_pids_to_log snap) : ChainDies snap 1 pid := by
  constructor
  · rw [pfIter_one]
    exact (root_pf_none hnd h).1
  · intro k hk
    interval_cases k
    simp [pfIter]

/-! ### Termination of the walk -/

theorem walkBound_of_chainDies (snap : Snap) (hnd : NodupKeys snap) :
    ∀ d pid N, ChainDies snap N pid → (keysOf snap).length + 2 ≤ d + N →
      WalkBound snap (childrenMapAt snap) pid d := by
  intro d
  induction d with
  | zero =>
    intro pid N hc hbound
    exfalso
    by_cases hx : pid ∈ keysOf snap
    · have := chainDies_le_keys hc hx
      omega
    · have hpf : pf snap pid = none := by
        unfold pf
        rw [alookup_eq_none_iff.mpr hx]
    
      have h1 : pfIter snap 1 pid = none := by rw [pfIter_one, hpf]
      have hN : N ≤ 1 := by
        by_contra hN
        exact hc.2 1 (by omega) h1
      omega
  | succ d ih =>
    intro pid N hc hbound
    cases hlk : alookup pid snap with
    | none => exact WalkBound.missing hlk
    | some dd =>
      apply WalkBound.node
      intro c hcmem
      have hch : c ∈ childrenMapAt snap pid := (mem_sortedChildrenOf.mp hcmem).1
      exact ih c (N + 1) (chainDies_child hnd hc hch) (by omega)

/-- The walk's result is fuel-independent once the fuel covers the
recursion depth: the recursion terminates. -/
theorem walk_stable_of_walkBound {snap : Snap} {cmap : Nat → List Nat} :
    ∀ {pid d}, WalkBound snap cmap pid d →
      ∀ f₁ f₂, d ≤ f₁ → d ≤ f₂ →
        log_process_tree snap cmap f₁ pid = log_process_tree snap cmap f₂ pid := by
  intro pid d hwb
  induction hwb with
  | @missing pid d hlk =>
    intro f₁ f₂ h1 h2
    obtain ⟨a, rfl⟩ : ∃ a, f₁ = a + 1 := ⟨f₁ - 1, by omega⟩
    obtain ⟨b, rfl⟩ : ∃ b, f₂ = b + 1 := ⟨f₂ - 1, by omega⟩
    rw [log_process_tree_succ_none hlk, log_process_tree_succ_none hlk]
  | @node pid d hch ih =>
    intro f₁ f₂ h1 h2
    obtain ⟨a, rfl⟩ : ∃ a, f₁ = a + 1 := ⟨f₁ - 1, by omega⟩
    obtain ⟨b, rfl⟩ : ∃ b, f₂ = b + 1 := ⟨f₂ - 1, by omega⟩
    cases hlk : alookup pid snap with
    | none => rw [log_process_tree_succ_none hlk, log_process_tree_succ_none hlk]
    | some dd =>
      have hab : ∀ c ∈ sortedChildrenOf snap cmap pid,
          log_process_tree snap cmap a c = log_process_tree snap cmap b c := by
        intro c hc
        exact ih c hc a b (by omega) (by omega)
      rw [log_process_tree_succ_of_mem hlk, log_process_tree_succ_of_mem hlk]
      have m1 := List.map_congr_left (l := sortedChildrenOf snap cmap pid)
        (f := fun c => (log_process_tree snap cmap a c).cpu)
        (g := fun c => (log_process_tree snap cmap b c).cpu)
        (fun c hc => by
          show (log_process_tree snap cmap a c).cpu = (log_process_tree snap cmap b c).cpu
          rw [hab c hc])
      have m2 := List.map_congr_left (l := sortedChildrenOf snap cmap pid)
        (f := fun c => (log_process_tree snap cmap a c).ws_kb)
        (g := fun c => (log_process_tree snap cmap b c).ws_kb)
        (fun c hc => by
          show (log_process_tree snap cmap a c).ws_kb = (log_process_tree snap cmap b c).ws_kb
          rw [hab c hc])
      have m3 := List.map_congr_left (l := sortedChildrenOf snap cmap pid)
        (f := fun c => (log_process_tree snap cmap a c).delta_read_bytes)
        (g := fun c => (log_process_tree snap cmap b c).delta_read_bytes)
        (fun c hc => by
          show (log_process_tree snap cmap a c).delta_read_bytes =
            (log_process_tree snap cmap b c).delta_read_bytes
          rw [hab c hc])
      have m4 := List.map_congr_left (l := sortedChildrenOf snap cmap pid)
        (f := fun c => (log_process_tree snap cmap a c).delta_write_bytes)
        (g := fun c => (log_process_tree snap cmap b c).delta_write_bytes)
        (fun c hc => by
          show (log_process_tree snap cmap a c).delta_write_bytes =
            (log_process_tree snap cmap b c).delta_write_bytes
          rw [hab c hc])
      have m5 := List.map_congr_left (l := sortedChildrenOf snap cmap pid)
        (f := fun c => (log_process_tree snap cmap a c).error_count)
        (g := fun c => (log_process_tree snap cmap b c).error_count)
        (fun c hc => by
          show (log_process_tree snap cmap a c).error_count =
            (log_process_tree snap cmap b c).error_count
          rw [hab c hc])
      rw [m1, m2, m3, m4, m5]

/-! ### The visited list is duplicate-free below a grounded pid -/

theorem visited_chain {snap : Snap} (hnd : NodupKeys snap) :
    ∀ f pid x, x ∈ tree_visited snap (childrenMapAt snap) f pid →
      ∃ k, pfIter snap k x = some pid := by
  intro f
  induction f with
  | zero => intro pid x hx; simp [tree_visited] at hx
  | succ f ih =>
    intro pid x hx
    cases hlk : alookup pid snap with
    | none =>
      rw [tree_visited_succ_none hlk] at hx
      simp at hx
      subst hx
      exact ⟨0, rfl⟩
    | some d =>
      rw [tree_visited_succ_some hlk] at hx
      rcases List.mem_append.mp hx with hx | hx
      · rcases List.mem_flatMap.mp hx with ⟨c, hcmem, hxc⟩
        obtain ⟨k, hk⟩ := ih c x hxc
        have hpf := pf_of_child hnd (mem_sortedChildrenOf.mp hcmem).1
        refine ⟨k + 1, ?_⟩
        rw [pfIter_succ_right, hk]
        simpa using hpf
      · simp at hx
        subst hx
        exact ⟨0, rfl⟩

theorem subtree_disjoint {snap : Snap} (hnd : NodupKeys snap) {N pid : Nat}
    (hc : ChainDies snap N pid) {c₁ c₂ : Nat}
    (h₁ : c₁ ∈ childrenMapAt snap pid) (h₂ : c₂ ∈ childrenMapAt snap pid)
    (hne : c₁ ≠ c₂) {f₁ f₂ x : Nat}
    (hx₁ : x ∈ tree_visited snap (childrenMapAt snap) f₁ c₁)
    (hx₂ : x ∈ tree_visited snap (childrenMapAt snap) f₂ c₂) : False := by
  obtain ⟨k₁, hk₁⟩ := visited_chain hnd f₁ c₁ x hx₁
  obtain ⟨k₂, hk₂⟩ := visited_chain hnd f₂ c₂ x hx₂
  have key : ∀ {c₁ c₂ k₁ k₂ : Nat}, c₁ ∈ childrenMapAt snap pid →
      c₂ ∈ childrenMapAt snap pid → c₁ ≠ c₂ →
      pfIter snap k₁ x = some c₁ → pfIter snap k₂ x = some c₂ → k₁ ≤ k₂ → False := by
    intro c₁ c₂ k₁ k₂ h₁ h₂ hne hk₁ hk₂ hle
    by_cases heq : k₁ = k₂
    · subst heq
      rw [hk₁] at hk₂
      exact hne (Option.some_injective _ hk₂)
    · have hm : 1 ≤ k₂ - k₁ := by omega
      have hstep : pfIter snap (k₂ - k₁) c₁ = some c₂ := by
        have h12 : pfIter snap k₂ x = (pfIter snap k₁ x).bind (pfIter snap (k₂ - k₁)) := by
          rw [← pfIter_add]
          congr 1
          omega
        rw [hk₂, hk₁] at h12
        simp only [Option.some_bind] at h12
        exact h12.symm
      have hper : pfIter snap (k₂ - k₁) pid = some pid := by
        have ha : pfIter snap (k₂ - k₁) c₁ =
            (pf snap c₁).bind (pfIter snap (k₂ - k₁ - 1)) := by
          rw [show k₂ - k₁ = 1 + (k₂ - k₁ - 1) from by omega, pfIter_add, pfIter_one]
          rw [show 1 + (k₂ - k₁ - 1) - 1 = k₂ - k₁ - 1 from by omega]
        rw [pf_of_child hnd h₁] at ha
        simp only [Option.some_bind] at ha
        have hb : pfIter snap (k₂ - k₁ - 1) pid = some c₂ := by
          rw [← ha, hstep]
        have hcmb : pfIter snap (k₂ - k₁) pid =
            (pfIter snap (k₂ - k₁ - 1) pid).bind (pf snap) := by
          rw [← pfIter_succ_right]
          congr 1
          omega
        rw [hb] at hcmb
        simp only [Option.some_bind] at hcmb
        rw [hcmb, pf_of_child hnd h₂]
      exact no_period_of_mortal hper hm hc.1
  rcases Nat.le_total k₁ k₂ with hle | hle
  · exact key h₁ h₂ hne hk₁ hk₂ hle
  · exact key h₂ h₁ (Ne.symm hne) hk₂ hk₁ hle

theorem pid_not_in_child_subtree {snap : Snap} (hnd : NodupKeys snap) {N pid c f : Nat}
    (hc : ChainDies snap N pid) (hch : c ∈ childrenMapAt snap pid)
    (hx : pid ∈ tree_visited snap (childrenMapAt snap) f c) : False := by
  obtain ⟨k, hk⟩ := visited_chain hnd f c pid hx
  have hper : pfIter snap (k + 1) pid = some pid := by
    rw [pfIter_succ_right, hk]
    simpa using pf_of_child hnd hch
  exact no_period_of_mortal hper (by omega) hc.1

theorem childrenMapAt_nodup {snap : Snap} {q : Nat} (hnd : NodupKeys snap) :
    (childrenMapAt snap q).Nodup := by
  unfold childrenMapAt
  exact List.Nodup.sublist ((List.filter_sublist snap).map Prod.fst) hnd

theorem sortedChildrenOf_nodup {snap : Snap} {pid : Nat} (hnd : NodupKeys snap) :
    (sortedChildrenOf snap (childrenMapAt snap) pid).Nodup := by
  unfold sortedChildrenOf
  exact (List.perm_insertionSort _ _).nodup_iff.mpr
    ((childrenMapAt_nodup hnd).filter _)

/-- Below a grounded pid (one whose upward parent chain terminates, e.g.
any root) the walk visits each pid at most once: the reachable subgraph
is a forest. -/
theorem visited_nodup {snap : Snap} (hnd : NodupKeys snap) :
    ∀ f pid N, ChainDies snap N pid →
      (tree_visited snap (childrenMapAt snap) f pid).Nodup := by
  intro f
  induction f with
  | zero => intro pid N _; simp [tree_visited]
  | succ f ih =>
    intro pid N hc
    cases hlk : alookup pid snap with
    | none =>
      rw [tree_visited_succ_none hlk]
      exact List.nodup_singleton pid
    | some d =>
      rw [tree_visited_succ_some hlk]
      apply List.Nodup.append
      · rw [List.nodup_flatMap]
        constructor
        · intro c hcmem
          exact ih c (N + 1) (chainDies_child hnd hc (mem_sortedChildrenOf.mp hcmem).1)
        · apply List.Pairwise.imp_of_mem ?_ (sortedChildrenOf_nodup hnd)
          intro c₁ c₂ hc₁ hc₂ hne
          intro x hx₁ hx₂
          exact subtree_disjoint hnd hc (mem_sortedChildrenOf.mp hc₁).1
            (mem_sortedChildrenOf.mp hc₂).1 hne hx₁ hx₂
      · exact List.nodup_singleton pid
      · intro x hx hxp
        simp only [List.mem_singleton] at hxp
        subst hxp
        rcases List.mem_flatMap.mp hx with ⟨c, hcmem, hxc⟩
        exact (pid_not_in_child_subtree hnd hc (mem_sortedChildrenOf.mp hcmem).1 hxc).elim

/-! ### Parent-link cycles -/

theorem cycle_pf {snap : Snap} {S : List Nat} {p : Nat}
    (hcyc : IsParentCycle snap S) (hp : p ∈ S) :
    ∃ q ∈ S, pf snap p = some q := by
  obtain ⟨-, q, hqS, hq0, hppid⟩ := hcyc.2 p hp
  cases hlk : alookup p snap with
  | none => rw [hlk] at hppid; cases hppid
  | some d =>
    rw [hlk] at hppid
    simp only [Option.some_bind] at hppid
    have hck : containsKey snap q = true :=
      containsKey_iff_mem_keys.mpr (hcyc.2 q hqS).1
    exact ⟨q, hqS, by simp only [pf, hlk, hppid, if_pos (And.intro hq0 hck)]⟩

theorem cycle_chain_closed {snap : Snap} {S : List Nat}
    (hcyc : IsParentCycle snap S) :
    ∀ k p y, p ∈ S → pfIter snap k p = some y → y ∈ S := by
  intro k
  induction k with
  | zero =>
    intro p y hp h
    have : p = y := Option.some_injective _ h
    rw [← this]
    exact hp
  | succ k ih =>
    intro p y hp h
    obtain ⟨q, hqS, hpf⟩ := cycle_pf hcyc hp
    simp only [pfIter, hpf] at h
    exact ih q y hqS h

theorem cycle_not_root {snap : Snap} {S : List Nat} {p : Nat} (hnd : NodupKeys snap)
    (hcyc : IsParentCycle snap S) (hp : p ∈ S) :
    p ∉ root_pids_to_log snap := by
  intro hroot
  obtain ⟨q, hqS, hpf⟩ := cycle_pf hcyc hp
  rw [(root_pf_none hnd hroot).1] at hpf
  cases hpf

theorem reachesDown_chain {snap : Snap} (hnd : NodupKeys snap) {r x : Nat}
    (h : ReachesDown snap r x) : ∃ k, pfIter snap k x = some r := by
  induction h with
  | refl => exact ⟨0, rfl⟩
  | step hr hc ih =>
    obtain ⟨k, hk⟩ := ih
    refine ⟨1 + k, ?_⟩
    rw [pfIter_add, pfIter_one, pf_of_child hnd hc]
    simpa using hk

/-! ### Claims C1, C6 and C10 -/

/-- C1: for a root of the snapshot-derived forest, the `error_count`
returned by the recursive aggregation equals the number of nodes of the
visited subtree whose own status is in the error/terminated category
(nodes absent from the sample set count 1); the visited subtree has no
duplicates, and the count is independent of the order in which the
children map lists children (the walk sorts them). -/
theorem C1_error_count_counts_error_nodes (snap : Snap) (pid f : Nat)
    (cmap' : Nat → List Nat) (hnd : NodupKeys snap)
    (hroot : pid ∈ root_pids_to_log snap)
    (hperm : ∀ q, List.Perm (cmap' q) (childrenMapAt snap q)) :
    (log_process_tree snap (childrenMapAt snap) f pid).error_count =
      ((tree_visited snap (childrenMapAt snap) f pid).filter
        (fun x => isErrNode snap x)).length ∧
    (tree_visited snap (childrenMapAt snap) f pid).Nodup ∧
    (log_process_tree snap cmap' f pid).error_count =
      (log_process_tree snap (childrenMapAt snap) f pid).error_count := by
  refine ⟨error_count_eq_visited_count snap _ f pid, ?_, ?_⟩
  · exact visited_nodup hnd f pid 1 (chainDies_of_root hnd hroot)
  · rw [(walk_perm_invariant snap hperm f pid).1]

/-- C1 witness: on the concrete three-node tree the aggregate error
count at root 1 is the number of error nodes (exactly one, pid 3), the
visited list is duplicate-free, and reversing the children lists does
not change the count. -/
theorem C1_witness :
    (log_process_tree exSnapTree (childrenMapAt exSnapTree) 4 1).error_count =
      ((tree_visited exSnapTree (childrenMapAt exSnapTree) 4 1).filter
        (fun x => isErrNode exSnapTree x)).length ∧
    (tree_visited exSnapTree (childrenMapAt exSnapTree) 4 1).Nodup ∧
    (log_process_tree exSnapTree
        (fun q => (childrenMapAt exSnapTree q).reverse) 4 1).error_count =
      (log_process_tree exSnapTree (childrenMapAt exSnapTree) 4 1).error_count :=
  C1_error_count_counts_error_nodes exSnapTree 1 4
    (fun q => (childrenMapAt exSnapTree q).reverse) (by decide) (by decide)
    (fun q => List.reverse_perm _)

/-- C6: at a present node the walk's subtree totals satisfy the
additive law for all four metrics — own value plus the sum of the
recursive results over the sorted live children — and the CPU sum is
not normalized: on the concrete fixture the root's subtree CPU is
80 + 70 + 5 = 155 > 100. -/
theorem C6_subtree_totals_additive (snap : Snap) (cmap : Nat → List Nat)
    (f pid : Nat) (d : SampleData) (h : alookup pid snap = some d) :
    ((log_process_tree snap cmap (f + 1) pid).cpu =
      d.cpu_percent + ((sortedChildrenOf snap cmap pid).map
        (fun c => (log_process_tree snap cmap f c).cpu)).sum ∧
    (log_process_tree snap cmap (f + 1) pid).ws_kb =
      d.mem_ws_kb + ((sortedChildrenOf snap cmap pid).map
        (fun c => (log_process_tree snap cmap f c).ws_kb)).sum ∧
    (log_process_tree snap cmap (f + 1) pid).delta_read_bytes =
      d.delta_read_bytes + ((sortedChildrenOf snap cmap pid).map
        (fun c => (log_process_tree snap cmap f c).delta_read_bytes)).sum ∧
    (log_process_tree snap cmap (f + 1) pid).delta_write_bytes =
      d.delta_write_bytes + ((sortedChildrenOf snap cmap pid).map
        (fun c => (log_process_tree snap cmap f c).delta_write_bytes)).sum) ∧
    100 < (log_process_tree exSnapTree (childrenMapAt exSnapTree) 2 1).cpu := by
  constructor
  · rw [log_process_tree_succ_of_mem h]
    exact ⟨rfl, rfl, rfl, rfl⟩
  · have hs1 : sortedChildrenOf exSnapTree (childrenMapAt exSnapTree) 1 = [2, 3] := by
      decide
    have hs2 : sortedChildrenOf exSnapTree (childrenMapAt exSnapTree) 2 = [] := by decide
    have hs3 : sortedChildrenOf exSnapTree (childrenMapAt exSnapTree) 3 = [] := by decide
    have hc1 : alookup 1 exSnapTree = some ⟨some 0, "root", "running", 80, 10, 5, 6⟩ := by
      decide
    have hc2 : alookup 2 exSnapTree = some ⟨some 1, "kid2", "running", 70, 20, 7, 8⟩ := by
      decide
    have hc3 : alookup 3 exSnapTree =
        some ⟨some 1, "kid3", "cpu error", 5, 30, 9, 10⟩ := by decide
    have e2 : (log_process_tree exSnapTree (childrenMapAt exSnapTree) 1 2).cpu = 70 := by
      rw [show (1 : Nat) = 0 + 1 from rfl, log_process_tree_succ_of_mem hc2]
      simp [hs2]
    have e3 : (log_process_tree exSnapTree (childrenMapAt exSnapTree) 1 3).cpu = 5 := by
      rw [show (1 : Nat) = 0 + 1 from rfl, log_process_tree_succ_of_mem hc3]
      simp [hs3]
    rw [show (2 : Nat) = 1 + 1 from rfl, log_process_tree_succ_of_mem hc1]
    simp only [hs1, List.map_cons, List.map_nil, List.sum_cons, List.sum_nil, e2, e3]
    norm_num

/-- C6 witness: the additive law instantiated at the fixture's root. -/
theorem C6_witness :
    (log_process_tree exSnapTree (childrenMapAt exSnapTree) 2 1).cpu =
      (80 : ℚ) + ((sortedChildrenOf exSnapTree (childrenMapAt exSnapTree) 1).map
        (fun c => (log_process_tree exSnapTree (childrenMapAt exSnapTree) 1 c).cpu)).sum ∧
    100 < (log_process_tree exSnapTree (childrenMapAt exSnapTree) 2 1).cpu := by
  have h := C6_subtree_totals_additive exSnapTree (childrenMapAt exSnapTree) 1 1
    ⟨some 0, "root", "running", 80, 10, 5, 6⟩ (by decide)
  exact ⟨h.1.1, h.2⟩

/-- C10: in a snapshot whose live pids contain a parent-link cycle, no
cycle member is classified as a root, none is reachable from any root
through the children index, and none ever has a line rendered for it
(it is absent from every root's visited list at every fuel); meanwhile
the walk from any root terminates — its result is already stable at
fuel `|snap| + 1`, the reachable subgraph being a forest. -/
theorem C10_parent_cycle_members_omitted (snap : Snap) (S : List Nat)
    (p r f f₁ f₂ : Nat) (hnd : NodupKeys snap) (hcyc : IsParentCycle snap S)
    (hp : p ∈ S) (hr : r ∈ root_pids_to_log snap)
    (hf₁ : (keysOf snap).length + 1 ≤ f₁) (hf₂ : (keysOf snap).length + 1 ≤ f₂) :
    p ∉ root_pids_to_log snap ∧
    ¬ ReachesDown snap r p ∧
    p ∉ tree_visited snap (childrenMapAt snap) f r ∧
    log_process_tree snap (childrenMapAt snap) f₁ r =
      log_process_tree snap (childrenMapAt snap) f₂ r := by
  refine ⟨cycle_not_root hnd hcyc hp, ?_, ?_, ?_⟩
  · intro hreach
    obtain ⟨k, hk⟩ := reachesDown_chain hnd hreach
    exact cycle_not_root hnd hcyc (cycle_chain_closed hcyc k p r hp hk) hr
  · intro hvis
    obtain ⟨k, hk⟩ := visited_chain hnd f r p hvis
    exact cycle_not_root hnd hcyc (cycle_chain_closed hcyc k p r hp hk) hr
  · have hwb := walkBound_of_chainDies snap hnd ((keysOf snap).length + 1) r 1
      (chainDies_of_root hnd hr) (by omega)
    exact walk_stable_of_walkBound hwb f₁ f₂ (by omega) (by omega)

/-- C10 witness: on the concrete cycle fixture (pids 2 and 3 are each
other's parent, pid 1 the only root), pid 2 is not a root, is not
reachable from root 1, never appears in root 1's rendered lines, and the
walk from root 1 is already stable between fuels 4 and 9. -/
theorem C10_witness :
    2 ∉ root_pids_to_log exSnapCycle ∧
    ¬ ReachesDown exSnapCycle 1 2 ∧
    2 ∉ tree_visited exSnapCycle (childrenMapAt exSnapCycle) 5 1 ∧
    log_process_tree exSnapCycle (childrenMapAt exSnapCycle) 4 1 =
      log_process_tree exSnapCycle (childrenMapAt exSnapCycle) 9 1 :=
  C10_parent_cycle_members_omitted exSnapCycle [2, 3] 2 1 5 4 9
    (by decide) (by decide) (by decide) (by decide) (by decide) (by decide)

end Monitor
